import Mathlib

/-!
# Orphaned-secrets deleter: shallow embedding and verification

This file embeds the core of the orphaned-resource garbage collector
(the converged implementation: `gatherPods`, `cleanupSecrets`,
`cleanupServices`, `cleanupAllNamespaces`) and proves or refutes the
specification's claims about it.

Resource names are modelled as Lean `String`s (sequences of characters;
the Go code measures byte lengths, which coincides for the ASCII names
this system manages). Go's `strings.Contains` and the `strings.Split`
call on the fixed separator `-an-` are embedded as executable functions
on `List Char`. The Kubernetes API is modelled as an environment record
per namespace: the contents of the pod/secret/service lists, whether
each list call succeeds, and which delete calls fail. The channel-based
worker pool of `cleanupAllNamespaces` is modelled by its sequential
consumption order (namespaces are fed to the unbuffered channel in list
order); a worker that dies on a pod-list failure reduces the pool, and
once no worker is alive the remaining namespaces are never received.
-/

/-- Go `strings.Contains` on character lists: `containsSub s sub` is true
iff `sub` occurs as a contiguous substring of `s` (the empty substring
always occurs). -/
def containsSub : List Char → List Char → Bool
  | [], sub => sub.isEmpty
  | c :: t, sub => List.isPrefixOf sub (c :: t) || containsSub t sub

/-- Go `strings.Contains` on strings. -/
def containsStr (s sub : String) : Bool :=
  containsSub s.data sub.data

/-- Go `strings.Split(s, "-an-")`, specialised to the fixed separator the
code uses: splits `s` around each non-overlapping, leftmost-first
occurrence of `-an-`. -/
def splitAn : List Char → List (List Char)
  | [] => [[]]
  | '-' :: 'a' :: 'n' :: '-' :: rest => [] :: splitAn rest
  | c :: rest =>
    match splitAn rest with
    | [] => [[c]]
    | h :: t => (c :: h) :: t

/-- One step of the pod-name loop in `gatherPods` (part_002 lines
197-203): split the pod name on `-an-`; if that yields exactly two parts
and the first has length exactly 10, that first part is the ownership
prefix; otherwise the pod contributes nothing. -/
def ownPrefixOfPod (name : String) : Option String :=
  match splitAn name.data with
  | [a, _] => if a.length = 10 then some (String.mk a) else none
  | _ => none

/-- `gatherPods` (part_002 lines 189-205) restricted to its pure part:
the ownership prefixes extracted, in order, from a list of pod names
(the pod list call itself is modelled in the namespace environment
below). -/
def gatherPods (pods : List String) : List String :=
  pods.filterMap ownPrefixOfPod

/-- The protected-name test of `cleanupSecrets` (part_002 line 161):
the secret name contains `root` or `default-token`. -/
def isProtectedSecret (name : String) : Bool :=
  containsStr name "root" || containsStr name "default-token"

/-- The inner prefix loop of `cleanupSecrets` (part_002 lines 165-174),
returning the final value of `shouldDelete` given that it starts `true`:
for each prefix, if the name does not contain `-certificate` the loop
breaks with `false`; if the name contains the prefix it breaks with
`false`; otherwise it continues. An empty prefix list leaves
`shouldDelete` at `true`. -/
def secretPrefixLoop (name : String) : List String → Bool
  | [] => true
  | p :: ps =>
    if !containsStr name "-certificate" then false
    else if containsStr name p then false
    else secretPrefixLoop name ps

/-- The inner prefix loop of `cleanupServices` (part_002 lines 218-223):
`shouldDelete` stays `true` unless the service name contains one of the
prefixes. -/
def servicePrefixLoop (name : String) : List String → Bool
  | [] => true
  | p :: ps =>
    if containsStr name p then false else servicePrefixLoop name ps

/-- The per-service `shouldDelete` computation of `cleanupServices`
(part_002 lines 215-227): only services whose name contains `an-config`
enter the prefix loop; all others are kept. -/
def serviceShouldDelete (prefixes : List String) (name : String) : Bool :=
  if containsStr name "an-config" then servicePrefixLoop name prefixes
  else false

/-- Errors surfaced by the reaper, tagged with namespace (and resource
name for delete failures), mirroring the `fmt.Errorf` wrappers in the
code. -/
inductive ReapErr where
  | listPods (ns : String)
  | listSecrets (ns : String)
  | listServices (ns : String)
  | delSecret (ns name : String)
  | delService (ns name : String)
deriving DecidableEq, Repr

/-- Outcome of one secret- or service-reaping pass: the classification
decisions in processing order (`true` = DELETE, `false` = KEEP), the
names actually deleted, and the error the pass returned, if any. -/
structure PassOut where
  decisions : List (String × Bool)
  deleted : List String
  err : Option ReapErr
deriving DecidableEq, Repr

/-- The secrets loop of `cleanupSecrets` (part_002 lines 159-184), given
the secret list already obtained. `delFail` is the set of names whose
delete call would fail. Faithful to the source: a protected name
(`root` / `default-token`) sets `shouldDelete = false` and then `break`s
out of the secrets loop, so no later secret is processed; a failing
delete call makes the function return that error immediately; in
dry-run mode the delete call (and hence any delete failure) is skipped
but the decision is still taken. -/
def cleanupSecretsPass (ns : String) (delFail : List String) (dryRun : Bool)
    (prefixes : List String) : List String → PassOut
  | [] => ⟨[], [], none⟩
  | n :: rest =>
    if isProtectedSecret n then ⟨[(n, false)], [], none⟩
    else if secretPrefixLoop n prefixes then
      if dryRun then
        let o := cleanupSecretsPass ns delFail dryRun prefixes rest
        ⟨(n, true) :: o.decisions, o.deleted, o.err⟩
      else if delFail.contains n then
        ⟨[(n, true)], [], some (ReapErr.delSecret ns n)⟩
      else
        let o := cleanupSecretsPass ns delFail dryRun prefixes rest
        ⟨(n, true) :: o.decisions, n :: o.deleted, o.err⟩
    else
      let o := cleanupSecretsPass ns delFail dryRun prefixes rest
      ⟨(n, false) :: o.decisions, o.deleted, o.err⟩

/-- The services loop of `cleanupServices` (part_002 lines 215-237),
given the service list already obtained. A failing delete call makes
the function return that error immediately; dry-run skips the delete
call but keeps the decision. -/
def cleanupServicesPass (ns : String) (delFail : List String) (dryRun : Bool)
    (prefixes : List String) : List String → PassOut
  | [] => ⟨[], [], none⟩
  | n :: rest =>
    if serviceShouldDelete prefixes n then
      if dryRun then
        let o := cleanupServicesPass ns delFail dryRun prefixes rest
        ⟨(n, true) :: o.decisions, o.deleted, o.err⟩
      else if delFail.contains n then
        ⟨[(n, true)], [], some (ReapErr.delService ns n)⟩
      else
        let o := cleanupServicesPass ns delFail dryRun prefixes rest
        ⟨(n, true) :: o.decisions, n :: o.deleted, o.err⟩
    else
      let o := cleanupServicesPass ns delFail dryRun prefixes rest
      ⟨(n, false) :: o.decisions, o.deleted, o.err⟩

/-- The cluster state and API behaviour of one namespace, as the worker
of `cleanupAllNamespaces` observes it: the contents of each list, a flag
for whether each list call succeeds, and the names whose delete calls
fail. -/
structure NsEnv where
  name : String
  podsOk : Bool
  pods : List String
  secretsOk : Bool
  secrets : List String
  servicesOk : Bool
  services : List String
  secretDelFail : List String
  serviceDelFail : List String
deriving DecidableEq, Repr

/-- `gatherPods` (part_002 lines 189-205) including the pod list call:
on list failure it returns the wrapped error. -/
def gatherPodsE (env : NsEnv) : Except ReapErr (List String) :=
  if env.podsOk then Except.ok (gatherPods env.pods)
  else Except.error (ReapErr.listPods env.name)

/-- `cleanupSecrets` (part_002 lines 152-187) including the secret list
call: on list failure it returns the wrapped error without classifying
anything. -/
def cleanupSecretsE (env : NsEnv) (dryRun : Bool) (prefixes : List String) :
    PassOut :=
  if env.secretsOk then
    cleanupSecretsPass env.name env.secretDelFail dryRun prefixes env.secrets
  else ⟨[], [], some (ReapErr.listSecrets env.name)⟩

/-- `cleanupServices` (part_002 lines 207-240) including the service
list call. -/
def cleanupServicesE (env : NsEnv) (dryRun : Bool) (prefixes : List String) :
    PassOut :=
  if env.servicesOk then
    cleanupServicesPass env.name env.serviceDelFail dryRun prefixes env.services
  else ⟨[], [], some (ReapErr.listServices env.name)⟩

/-- Everything one namespace's turn in the worker loop produces: the
values sent on the error channel (in order; `none` is the nil error the
worker sends on success), the decisions and deletions of both passes,
and whether the worker `return`ed (died) because the pod list failed. -/
structure NsOutcome where
  errs : List (Option ReapErr)
  secretDecisions : List (String × Bool)
  serviceDecisions : List (String × Bool)
  deletedSecrets : List String
  deletedServices : List String
  workerDied : Bool
deriving DecidableEq, Repr

/-- The worker body of `cleanupAllNamespaces` for one namespace
(part_002 lines 109-117): on a pod-list failure the worker sends the
error and `return`s — neither `cleanupSecrets` nor `cleanupServices`
runs for that namespace and the worker processes no further namespaces;
otherwise both passes run and their results (nil or not) are sent. -/
def workNamespace (dryRun : Bool) (env : NsEnv) : NsOutcome :=
  match gatherPodsE env with
  | Except.error e => ⟨[some e], [], [], [], [], true⟩
  | Except.ok prefixes =>
    let so := cleanupSecretsE env dryRun prefixes
    let vo := cleanupServicesE env dryRun prefixes
    ⟨[so.err, vo.err], so.decisions, vo.decisions, so.deleted, vo.deleted, false⟩

/-- The worker pool of `cleanupAllNamespaces` (part_002 lines 104-134),
modelled by its sequential consumption order: namespaces are sent to
the unbuffered channel in list order and each is consumed by one of the
`alive` workers; a namespace whose pod listing fails kills its consumer,
and once no worker is alive the remaining namespaces are never received
(the producer blocks forever). Returns, per consumed namespace, its
name paired with its outcome. The early `return err` of the collecting
loop (and the `os.Exit` that follows in `main`) is modelled at the
collection stage, not here. -/
def runWorkers (dryRun : Bool) : Nat → List NsEnv → List (String × NsOutcome)
  | _, [] => []
  | 0, _ :: _ => []
  | alive + 1, env :: rest =>
    let o := workNamespace dryRun env
    (env.name, o) :: runWorkers dryRun (if o.workerDied then alive else alive + 1) rest

/-- `numWorkers` in `cleanupAllNamespaces` (part_002 line 104). -/
def numWorkers : Nat := 15

/-- The sequence of values sent on the error channel over a whole run
(nil sends included). -/
def errStream (dryRun : Bool) (nss : List NsEnv) : List (Option ReapErr) :=
  ((runWorkers dryRun numWorkers nss).map (fun x => x.2.errs)).flatten

/-- All non-nil errors produced during a run. -/
def collectedErrors (dryRun : Bool) (nss : List NsEnv) : List ReapErr :=
  (errStream dryRun nss).filterMap id

/-- The error-collection loop of `cleanupAllNamespaces` (part_002 lines
143-147): it returns the first non-nil value received from the error
channel, or nil if the channel closes first. -/
def firstErr : List (Option ReapErr) → Option ReapErr
  | [] => none
  | none :: rest => firstErr rest
  | some e :: _ => some e

/-- `cleanupAllNamespaces` (part_002 lines 88-150): the overall result
is what the collection loop returns. `main` exits with code 0 iff this
is `none`. -/
def cleanupAllNamespaces (dryRun : Bool) (nss : List NsEnv) : Option ReapErr :=
  firstErr (errStream dryRun nss)

/-- All secrets deleted during a run, tagged with their namespace. -/
def orchDeletedSecrets (dryRun : Bool) (nss : List NsEnv) :
    List (String × String) :=
  ((runWorkers dryRun numWorkers nss).map
    (fun x => x.2.deletedSecrets.map (fun n => (x.1, n)))).flatten

/-! ## Helper lemmas -/

/-- Soundness of the deleted list of a secrets pass: anything deleted was
unprotected, `shouldDelete`-classified, and the run was live. -/
theorem secrets_deleted_mem (ns : String) (delFail : List String) (dryRun : Bool)
    (prefixes secrets : List String) (n : String)
    (h : n ∈ (cleanupSecretsPass ns delFail dryRun prefixes secrets).deleted) :
    isProtectedSecret n = false ∧ secretPrefixLoop n prefixes = true ∧
      dryRun = false := by
  induction secrets with
  | nil => simp [cleanupSecretsPass] at h
  | cons m rest ih =>
    by_cases hm : isProtectedSecret m = true
    · simp [cleanupSecretsPass, hm] at h
    · by_cases hd : secretPrefixLoop m prefixes = true
      · cases dryRun with
        | true =>
          simp [cleanupSecretsPass, hm, hd] at h
          exact absurd (ih h).2.2 (by simp)
        | false =>
          by_cases hf : m ∈ delFail
          · simp [cleanupSecretsPass, hm, hd, hf] at h
          · simp [cleanupSecretsPass, hm, hd, hf] at h
            rcases h with h | h
            · subst h
              exact ⟨by simpa using hm, hd, rfl⟩
            · exact ih h
      · simp [cleanupSecretsPass, hm, hd] at h
        exact ih h

/-- Soundness of the DELETE decisions of a secrets pass: a DELETE
decision is only ever taken for an unprotected, `shouldDelete`-classified
name. -/
theorem secrets_decisions_delete_mem (ns : String) (delFail : List String)
    (dryRun : Bool) (prefixes secrets : List String) (n : String)
    (h : (n, true) ∈ (cleanupSecretsPass ns delFail dryRun prefixes secrets).decisions) :
    isProtectedSecret n = false ∧ secretPrefixLoop n prefixes = true := by
  induction secrets with
  | nil => simp [cleanupSecretsPass] at h
  | cons m rest ih =>
    by_cases hm : isProtectedSecret m = true
    · simp [cleanupSecretsPass, hm] at h
    · by_cases hd : secretPrefixLoop m prefixes = true
      · cases dryRun with
        | true =>
          simp [cleanupSecretsPass, hm, hd] at h
          rcases h with h | h
          · subst h; exact ⟨by simpa using hm, hd⟩
          · exact ih h
        | false =>
          by_cases hf : m ∈ delFail
          · simp [cleanupSecretsPass, hm, hd, hf] at h
            subst h; exact ⟨by simpa using hm, hd⟩
          · simp [cleanupSecretsPass, hm, hd, hf] at h
            rcases h with h | h
            · subst h; exact ⟨by simpa using hm, hd⟩
            · exact ih h
      · simp [cleanupSecretsPass, hm, hd] at h
        exact ih h

/-- Soundness of the deleted list of a services pass. -/
theorem services_deleted_mem (ns : String) (delFail : List String) (dryRun : Bool)
    (prefixes services : List String) (n : String)
    (h : n ∈ (cleanupServicesPass ns delFail dryRun prefixes services).deleted) :
    serviceShouldDelete prefixes n = true ∧ dryRun = false := by
  induction services with
  | nil => simp [cleanupServicesPass] at h
  | cons m rest ih =>
    by_cases hd : serviceShouldDelete prefixes m = true
    · cases dryRun with
      | true =>
        simp [cleanupServicesPass, hd] at h
        exact absurd (ih h).2 (by simp)
      | false =>
        by_cases hf : m ∈ delFail
        · simp [cleanupServicesPass, hd, hf] at h
        · simp [cleanupServicesPass, hd, hf] at h
          rcases h with h | h
          · subst h; exact ⟨hd, rfl⟩
          · exact ih h
    · simp [cleanupServicesPass, hd] at h
      exact ih h

/-- Characterisation of the Pod-Prefix Correlator on one pod name. -/
theorem ownPrefixOfPod_eq_some (n p : String) :
    ownPrefixOfPod n = some p ↔
      ∃ s, splitAn n.data = [p.data, s] ∧ p.data.length = 10 := by
  obtain ⟨d⟩ := p
  rcases e : splitAn n.data with _ | ⟨a, _ | ⟨b, _ | ⟨c, t⟩⟩⟩ <;>
    simp [ownPrefixOfPod, e]
  by_cases h10 : a.length = 10
  · simp [h10]
    constructor
    · intro h
      have had : a = d := congrArg String.data h
      exact ⟨had, had ▸ h10⟩
    · rintro ⟨had, -⟩
      exact congrArg String.mk had
  · simp [h10]
    intro had
    rw [had] at h10
    exact h10

/-! ## Claims -/

/-- C1: the claim that a secret whose name does not contain
`-certificate` is KEEP for every OwnershipPrefixSet, including the empty
set, fails on the code: `cleanupSecrets` performs the `-certificate`
scope check inside the loop over the prefixes, so with an empty prefix
set (a namespace with no conforming pods) the check never executes and
an unprotected non-certificate secret such as `db-password` is
classified DELETE and deleted. -/
theorem secret_scope_check_skipped_concrete :
    containsStr "db-password" "-certificate" = false ∧
    cleanupSecretsPass "ns" [] false [] ["db-password"]
      = ⟨[("db-password", true)], ["db-password"], none⟩ := by decide

/-- C2: a service whose name does not contain `an-config` is classified
KEEP by the service classifier (`cleanupServices`) and is never deleted,
for every prefix set (including the empty one), every dry-run setting
and every delete-failure behaviour. -/
theorem service_nonConfig_keep (ns : String) (delFail prefixes : List String)
    (dryRun : Bool) (services : List String) (name : String)
    (h : containsStr name "an-config" = false) :
    serviceShouldDelete prefixes name = false ∧
      name ∉ (cleanupServicesPass ns delFail dryRun prefixes services).deleted := by
  have hsd : serviceShouldDelete prefixes name = false := by
    simp [serviceShouldDelete, h]
  refine ⟨hsd, fun hm => ?_⟩
  have := (services_deleted_mem ns delFail dryRun prefixes services name hm).1
  simp [hsd] at this

/-- Witness for C2 at a concrete input. -/
theorem service_nonConfig_keep_witness :
    serviceShouldDelete ["abcdefghij"] "unrelated-service" = false ∧
      "unrelated-service" ∉ (cleanupServicesPass "ns" [] false ["abcdefghij"]
        ["unrelated-service", "zzzzzzzzzz-an-config"]).deleted :=
  service_nonConfig_keep "ns" [] ["abcdefghij"] false
    ["unrelated-service", "zzzzzzzzzz-an-config"] "unrelated-service" (by decide)

/-- C3: a secret whose name contains `root` (or the protected pattern
`default-token`) is never deleted and never receives a DELETE decision,
for every prefix set, dry-run setting and delete-failure behaviour. -/
theorem secret_protected_keep (ns : String) (delFail prefixes : List String)
    (dryRun : Bool) (secrets : List String) (name : String)
    (h : containsStr name "root" = true ∨ containsStr name "default-token" = true) :
    name ∉ (cleanupSecretsPass ns delFail dryRun prefixes secrets).deleted ∧
      (name, true) ∉ (cleanupSecretsPass ns delFail dryRun prefixes secrets).decisions := by
  have hp : isProtectedSecret name = true := by
    rcases h with h | h <;> simp [isProtectedSecret, h]
  constructor
  · intro hm
    have := (secrets_deleted_mem ns delFail dryRun prefixes secrets name hm).1
    simp [hp] at this
  · intro hm
    have := (secrets_decisions_delete_mem ns delFail dryRun prefixes secrets name hm).1
    simp [hp] at this

/-- Witness for C3 at a concrete input. -/
theorem secret_protected_keep_witness :
    "root-certificate" ∉ (cleanupSecretsPass "ns" [] false []
        ["root-certificate"]).deleted ∧
      ("root-certificate", true) ∉ (cleanupSecretsPass "ns" [] false []
        ["root-certificate"]).decisions :=
  secret_protected_keep "ns" [] [] false ["root-certificate"] "root-certificate"
    (Or.inl (by decide))

/-- C4: the Pod-Prefix Correlator adds a prefix for a pod name if and
only if splitting the name on `-an-` yields exactly two segments and the
first segment has length exactly 10 (the prefix added being that first
segment); every other pod name contributes nothing, and the correlator
is a total function (no error is raised for malformed names). -/
theorem gatherPods_mem_iff (pods : List String) (p : String) :
    p ∈ gatherPods pods ↔
      ∃ n ∈ pods, ∃ s, splitAn n.data = [p.data, s] ∧ p.data.length = 10 := by
  unfold gatherPods
  rw [List.mem_filterMap]
  constructor
  · rintro ⟨n, hn, he⟩
    exact ⟨n, hn, (ownPrefixOfPod_eq_some n p).1 he⟩
  · rintro ⟨n, hn, hs⟩
    exact ⟨n, hn, (ownPrefixOfPod_eq_some n p).2 hs⟩

/-- The decisions of a secrets pass do not depend on the dry-run flag
when delete calls succeed. -/
theorem secrets_dry_decisions_eq (ns : String) (prefixes secrets : List String) :
    (cleanupSecretsPass ns [] true prefixes secrets).decisions
      = (cleanupSecretsPass ns [] false prefixes secrets).decisions := by
  induction secrets with
  | nil => rfl
  | cons m rest ih =>
    by_cases hm : isProtectedSecret m = true
    · simp [cleanupSecretsPass, hm]
    · by_cases hd : secretPrefixLoop m prefixes = true <;>
        simp [cleanupSecretsPass, hm, hd, ih]

/-- A dry-run secrets pass deletes nothing. -/
theorem secrets_dry_deleted_nil (ns : String)
    (delFail prefixes secrets : List String) :
    (cleanupSecretsPass ns delFail true prefixes secrets).deleted = [] := by
  induction secrets with
  | nil => rfl
  | cons m rest ih =>
    by_cases hm : isProtectedSecret m = true
    · simp [cleanupSecretsPass, hm]
    · by_cases hd : secretPrefixLoop m prefixes = true <;>
        simp [cleanupSecretsPass, hm, hd, ih]

/-- A live secrets pass with succeeding delete calls deletes exactly the
DELETE-classified secrets. -/
theorem secrets_live_deleted_eq_filter (ns : String)
    (prefixes secrets : List String) :
    (cleanupSecretsPass ns [] false prefixes secrets).deleted
      = ((cleanupSecretsPass ns [] false prefixes secrets).decisions.filter
          (fun d => d.2)).map (fun d => d.1) := by
  induction secrets with
  | nil => rfl
  | cons m rest ih =>
    by_cases hm : isProtectedSecret m = true
    · simp [cleanupSecretsPass, hm]
    · by_cases hd : secretPrefixLoop m prefixes = true <;>
        simp [cleanupSecretsPass, hm, hd, ih]

/-- The decisions of a services pass do not depend on the dry-run flag
when delete calls succeed. -/
theorem services_dry_decisions_eq (ns : String) (prefixes services : List String) :
    (cleanupServicesPass ns [] true prefixes services).decisions
      = (cleanupServicesPass ns [] false prefixes services).decisions := by
  induction services with
  | nil => rfl
  | cons m rest ih =>
    by_cases hd : serviceShouldDelete prefixes m = true <;>
      simp [cleanupServicesPass, hd, ih]

/-- A dry-run services pass deletes nothing. -/
theorem services_dry_deleted_nil (ns : String)
    (delFail prefixes services : List String) :
    (cleanupServicesPass ns delFail true prefixes services).deleted = [] := by
  induction services with
  | nil => rfl
  | cons m rest ih =>
    by_cases hd : serviceShouldDelete prefixes m = true <;>
      simp [cleanupServicesPass, hd, ih]

/-- A live services pass with succeeding delete calls deletes exactly
the DELETE-classified services. -/
theorem services_live_deleted_eq_filter (ns : String)
    (prefixes services : List String) :
    (cleanupServicesPass ns [] false prefixes services).deleted
      = ((cleanupServicesPass ns [] false prefixes services).decisions.filter
          (fun d => d.2)).map (fun d => d.1) := by
  induction services with
  | nil => rfl
  | cons m rest ih =>
    by_cases hd : serviceShouldDelete prefixes m = true <;>
      simp [cleanupServicesPass, hd, ih]

/-- C5: for identical cluster state (pods, secrets, services of a
namespace), the dry-run and live runs take the identical classification
decisions for every secret and service; the dry-run run issues no
delete call, and the live run (with the delete calls succeeding)
deletes exactly the DELETE-classified resources. -/
theorem dryRun_equivalence (ns : String) (pods secrets services : List String) :
    ((cleanupSecretsPass ns [] true (gatherPods pods) secrets).decisions
        = (cleanupSecretsPass ns [] false (gatherPods pods) secrets).decisions)
    ∧ ((cleanupServicesPass ns [] true (gatherPods pods) services).decisions
        = (cleanupServicesPass ns [] false (gatherPods pods) services).decisions)
    ∧ (cleanupSecretsPass ns [] true (gatherPods pods) secrets).deleted = []
    ∧ (cleanupServicesPass ns [] true (gatherPods pods) services).deleted = []
    ∧ (cleanupSecretsPass ns [] false (gatherPods pods) secrets).deleted
        = ((cleanupSecretsPass ns [] false (gatherPods pods) secrets).decisions.filter
            (fun d => d.2)).map (fun d => d.1)
    ∧ (cleanupServicesPass ns [] false (gatherPods pods) services).deleted
        = ((cleanupServicesPass ns [] false (gatherPods pods) services).decisions.filter
            (fun d => d.2)).map (fun d => d.1) :=
  ⟨secrets_dry_decisions_eq ns (gatherPods pods) secrets,
   services_dry_decisions_eq ns (gatherPods pods) services,
   secrets_dry_deleted_nil ns [] (gatherPods pods) secrets,
   services_dry_deleted_nil ns [] (gatherPods pods) services,
   secrets_live_deleted_eq_filter ns (gatherPods pods) secrets,
   services_live_deleted_eq_filter ns (gatherPods pods) services⟩

/-- The collection loop returns nil iff no non-nil error was sent. -/
theorem firstErr_eq_none_iff (l : List (Option ReapErr)) :
    firstErr l = none ↔ l.filterMap id = [] := by
  induction l with
  | nil => simp [firstErr]
  | cons o rest ih =>
    cases o with
    | none => simpa [firstErr] using ih
    | some e => simp [firstErr]

/-- C6 counterexample: two namespaces each suffer a delete failure, so
two distinct errors are produced, but the orchestrator's outcome is only
the first of them — it is not the union of all errors as the claim
states. -/
theorem orchestrator_first_error_only :
    collectedErrors false
      [⟨"ns1", true, [], true, ["s1"], true, [], ["s1"], []⟩,
       ⟨"ns2", true, [], true, ["s2"], true, [], ["s2"], []⟩]
      = [ReapErr.delSecret "ns1" "s1", ReapErr.delSecret "ns2" "s2"] ∧
    cleanupAllNamespaces false
      [⟨"ns1", true, [], true, ["s1"], true, [], ["s1"], []⟩,
       ⟨"ns2", true, [], true, ["s2"], true, [], ["s2"], []⟩]
      = some (ReapErr.delSecret "ns1" "s1") := by decide

/-- C6 (amended): the orchestrator funnels all worker results into one
error channel but its outcome is only the first non-nil error received,
not the union of all errors; it reports success (nil result, process
exit code 0) if and only if zero errors occurred across all processed
namespaces. -/
theorem orchestrator_ok_iff_no_errors (dryRun : Bool) (nss : List NsEnv) :
    cleanupAllNamespaces dryRun nss = none ↔ collectedErrors dryRun nss = [] :=
  firstErr_eq_none_iff (errStream dryRun nss)

/-- A failing secret delete aborts the secrets pass: everything before
the failing secret is processed as usual, the failure is returned as an
error tagged with the secret's name, and nothing after it is processed. -/
theorem secretsPass_abort_at_failure (ns : String) (delFail prefixes : List String)
    (xs ys : List String) (n : String)
    (h1 : ∀ m ∈ xs, isProtectedSecret m = false)
    (h2 : ∀ m ∈ xs, secretPrefixLoop m prefixes = true → m ∉ delFail)
    (hn1 : isProtectedSecret n = false)
    (hn2 : secretPrefixLoop n prefixes = true)
    (hn3 : n ∈ delFail) :
    cleanupSecretsPass ns delFail false prefixes (xs ++ n :: ys)
      = ⟨(cleanupSecretsPass ns delFail false prefixes xs).decisions ++ [(n, true)],
         (cleanupSecretsPass ns delFail false prefixes xs).deleted,
         some (ReapErr.delSecret ns n)⟩ := by
  induction xs with
  | nil => simp [cleanupSecretsPass, hn1, hn2, hn3]
  | cons m xs' ih =>
    have hm1 : isProtectedSecret m = false := h1 m (by simp)
    have ih' := ih (fun a ha => h1 a (by simp [ha])) (fun a ha => h2 a (by simp [ha]))
    by_cases hd : secretPrefixLoop m prefixes = true
    · have hm2 : m ∉ delFail := h2 m (by simp) hd
      simp [cleanupSecretsPass, hm1, hd, hm2, ih']
    · simp [cleanupSecretsPass, hm1, hd, ih']

/-- A failing service delete aborts the services pass in the same way. -/
theorem servicesPass_abort_at_failure (ns : String) (delFail prefixes : List String)
    (xs ys : List String) (n : String)
    (h2 : ∀ m ∈ xs, serviceShouldDelete prefixes m = true → m ∉ delFail)
    (hn2 : serviceShouldDelete prefixes n = true)
    (hn3 : n ∈ delFail) :
    cleanupServicesPass ns delFail false prefixes (xs ++ n :: ys)
      = ⟨(cleanupServicesPass ns delFail false prefixes xs).decisions ++ [(n, true)],
         (cleanupServicesPass ns delFail false prefixes xs).deleted,
         some (ReapErr.delService ns n)⟩ := by
  induction xs with
  | nil => simp [cleanupServicesPass, hn2, hn3]
  | cons m xs' ih =>
    have ih' := ih (fun a ha hsd => h2 a (by simp [ha]) hsd)
    by_cases hd : serviceShouldDelete prefixes m = true
    · have hm2 : m ∉ delFail := h2 m (by simp) hd
      simp [cleanupServicesPass, hd, hm2, ih']
    · simp [cleanupServicesPass, hd, ih']

/-- C6/C7 counterexample support — C7 counterexample: with a failing
delete for the first secret, the pass records that one error and stops:
the later secret `b-certificate` is neither classified nor deleted,
although without the failure it would have been classified DELETE and
deleted. A failing deletion therefore does prevent the processing of
later resources, contrary to the claim. -/
theorem delete_failure_blocks_later_concrete :
    cleanupSecretsPass "ns" ["a-certificate"] false []
        ["a-certificate", "b-certificate"]
      = ⟨[("a-certificate", true)], [], some (ReapErr.delSecret "ns" "a-certificate")⟩ ∧
    cleanupSecretsPass "ns" [] false [] ["a-certificate", "b-certificate"]
      = ⟨[("a-certificate", true), ("b-certificate", true)],
          ["a-certificate", "b-certificate"], none⟩ := by decide

/-- C7 (amended): a failing deletion is recorded as a distinct error
tagged with the resource name and kind, but it aborts the remainder of
that pass: the resources before the failing one are processed as usual
and no later secret (respectively service) of the same pass is
classified or deleted. (The orchestrator still runs the services pass
of a namespace after a failing secrets pass.) -/
theorem delete_failure_aborts :
    (∀ (ns : String) (delFail prefixes xs ys : List String) (n : String),
        (∀ m ∈ xs, isProtectedSecret m = false) →
        (∀ m ∈ xs, secretPrefixLoop m prefixes = true → m ∉ delFail) →
        isProtectedSecret n = false →
        secretPrefixLoop n prefixes = true →
        n ∈ delFail →
        cleanupSecretsPass ns delFail false prefixes (xs ++ n :: ys)
          = ⟨(cleanupSecretsPass ns delFail false prefixes xs).decisions ++ [(n, true)],
             (cleanupSecretsPass ns delFail false prefixes xs).deleted,
             some (ReapErr.delSecret ns n)⟩) ∧
    (∀ (ns : String) (delFail prefixes xs ys : List String) (n : String),
        (∀ m ∈ xs, serviceShouldDelete prefixes m = true → m ∉ delFail) →
        serviceShouldDelete prefixes n = true →
        n ∈ delFail →
        cleanupServicesPass ns delFail false prefixes (xs ++ n :: ys)
          = ⟨(cleanupServicesPass ns delFail false prefixes xs).decisions ++ [(n, true)],
             (cleanupServicesPass ns delFail false prefixes xs).deleted,
             some (ReapErr.delService ns n)⟩) :=
  ⟨fun ns delFail prefixes xs ys n h1 h2 hn1 hn2 hn3 =>
      secretsPass_abort_at_failure ns delFail prefixes xs ys n h1 h2 hn1 hn2 hn3,
   fun ns delFail prefixes xs ys n h2 hn2 hn3 =>
      servicesPass_abort_at_failure ns delFail prefixes xs ys n h2 hn2 hn3⟩

/-- Witness for C7 at concrete inputs. -/
theorem delete_failure_aborts_witness :
    cleanupSecretsPass "ns" ["a-certificate"] false []
        (["keep-me"] ++ "a-certificate" :: ["b-certificate"])
      = ⟨(cleanupSecretsPass "ns" ["a-certificate"] false [] ["keep-me"]).decisions
           ++ [("a-certificate", true)],
         (cleanupSecretsPass "ns" ["a-certificate"] false [] ["keep-me"]).deleted,
         some (ReapErr.delSecret "ns" "a-certificate")⟩ ∧
    cleanupServicesPass "ns" ["x-an-config"] false []
        (["plain"] ++ "x-an-config" :: ["y-an-config"])
      = ⟨(cleanupServicesPass "ns" ["x-an-config"] false [] ["plain"]).decisions
           ++ [("x-an-config", true)],
         (cleanupServicesPass "ns" ["x-an-config"] false [] ["plain"]).deleted,
         some (ReapErr.delService "ns" "x-an-config")⟩ :=
  ⟨delete_failure_aborts.1 "ns" ["a-certificate"] [] ["keep-me"] ["b-certificate"]
      "a-certificate" (by decide) (by decide) (by decide) (by decide) (by decide),
   delete_failure_aborts.2 "ns" ["x-an-config"] [] ["plain"] ["y-an-config"]
      "x-an-config" (by decide) (by decide) (by decide)⟩

/-- C8 counterexample: 15 namespaces with failing pod listing each kill
one of the 15 pool workers, after which a 16th namespace holding a
DELETE-classified secret is never received from the work queue and its
secret is not deleted — while in an otherwise identical run whose pod
listings succeed it is deleted. A pod-list failure therefore does
affect the processing of other namespaces, contrary to the claim. -/
theorem podList_failures_block_later_namespaces :
    orchDeletedSecrets false
      (List.replicate 15 ⟨"nsf", false, [], true, [], true, [], [], []⟩
        ++ [⟨"ns16", true, [], true, ["x-certificate"], true, [], [], []⟩]) = [] ∧
    orchDeletedSecrets false
      (List.replicate 15 ⟨"nsf", true, [], true, [], true, [], [], []⟩
        ++ [⟨"ns16", true, [], true, ["x-certificate"], true, [], [], []⟩])
      = [("ns16", "x-certificate")] := by decide

/-- C8 (amended): when listing pods fails for a namespace, neither the
secret classifier nor the service classifier runs for that namespace in
that pass — no resource of that namespace is classified or deleted and
the pod-list error is surfaced; the worker that processed the namespace
dies, however, so the processing of other namespaces is not unaffected
in general. -/
theorem podList_failure_skips_namespace (dryRun : Bool) (env : NsEnv)
    (h : env.podsOk = false) :
    workNamespace dryRun env
      = ⟨[some (ReapErr.listPods env.name)], [], [], [], [], true⟩ := by
  simp [workNamespace, gatherPodsE, h]

/-- Witness for C8 at a concrete input. -/
theorem podList_failure_skips_namespace_witness :
    workNamespace false
        ⟨"nsf", false, ["abcdefghij-an-1"], true, ["x-certificate"], true,
          ["y-an-config"], [], []⟩
      = ⟨[some (ReapErr.listPods "nsf")], [], [], [], [], true⟩ :=
  podList_failure_skips_namespace false
    ⟨"nsf", false, ["abcdefghij-an-1"], true, ["x-certificate"], true,
      ["y-an-config"], [], []⟩ (by decide)

/-- When a secret at index `i` is protected, at most the first `i + 1`
secrets receive a classification decision. -/
theorem secrets_decisions_len_of_protected (ns : String) (delFail : List String)
    (dryRun : Bool) (prefixes secrets : List String) (i : Nat)
    (h : i < secrets.length)
    (hp : isProtectedSecret (secrets.get ⟨i, h⟩) = true) :
    (cleanupSecretsPass ns delFail dryRun prefixes secrets).decisions.length
      ≤ i + 1 := by
  induction secrets generalizing i with
  | nil => simp at h
  | cons m rest ih =>
    by_cases hm : isProtectedSecret m = true
    · simp [cleanupSecretsPass, hm]
    · cases i with
      | zero =>
        simp at hp
        exact absurd hp hm
      | succ j =>
        have hj : j < rest.length := by simp at h; omega
        have hpj : isProtectedSecret (rest.get ⟨j, hj⟩) = true := by simpa using hp
        have ihj := ih j hj hpj
        by_cases hd : secretPrefixLoop m prefixes = true
        · cases dryRun with
          | true =>
            simp [cleanupSecretsPass, hm, hd]
            omega
          | false =>
            by_cases hf : m ∈ delFail
            · simp [cleanupSecretsPass, hm, hd, hf]
            · simp [cleanupSecretsPass, hm, hd, hf]
              omega
        · simp [cleanupSecretsPass, hm, hd]
          omega

/-- When a secret at index `i` is protected, everything deleted comes
from the first `i` secrets. -/
theorem secrets_deleted_take_of_protected (ns : String) (delFail : List String)
    (dryRun : Bool) (prefixes secrets : List String) (i : Nat)
    (h : i < secrets.length)
    (hp : isProtectedSecret (secrets.get ⟨i, h⟩) = true) :
    ∀ n ∈ (cleanupSecretsPass ns delFail dryRun prefixes secrets).deleted,
      n ∈ secrets.take i := by
  induction secrets generalizing i with
  | nil => simp at h
  | cons m rest ih =>
    by_cases hm : isProtectedSecret m = true
    · simp [cleanupSecretsPass, hm]
    · cases i with
      | zero =>
        simp at hp
        exact absurd hp hm
      | succ j =>
        have hj : j < rest.length := by simp at h; omega
        have hpj : isProtectedSecret (rest.get ⟨j, hj⟩) = true := by simpa using hp
        have ihj := ih j hj hpj
        intro n hn
        rw [List.take_succ_cons]
        by_cases hd : secretPrefixLoop m prefixes = true
        · cases dryRun with
          | true =>
            simp [cleanupSecretsPass, hm, hd] at hn
            exact List.mem_cons_of_mem m (ihj n hn)
          | false =>
            by_cases hf : m ∈ delFail
            · simp [cleanupSecretsPass, hm, hd, hf] at hn
            · simp [cleanupSecretsPass, hm, hd, hf] at hn
              rcases hn with hn | hn
              · subst hn
                exact List.mem_cons_self _ _
              · exact List.mem_cons_of_mem m (ihj n hn)
        · simp [cleanupSecretsPass, hm, hd] at hn
          exact List.mem_cons_of_mem m (ihj n hn)

/-- C10: if the secrets list of a namespace has a protected secret
(name containing `root` or `default-token`) at position `i`, the
secrets pass classifies at most the secrets up to and including
position `i`, everything it deletes comes from the positions before
`i` and is unprotected (in particular the protected secret itself is
kept), and every protected name that receives a decision receives
KEEP — regardless of the prefix set, the dry-run flag and the delete
failures. -/
theorem protected_break_truncates (ns : String) (delFail : List String)
    (dryRun : Bool) (prefixes secrets : List String) (i : Nat)
    (h : i < secrets.length)
    (hp : isProtectedSecret (secrets.get ⟨i, h⟩) = true) :
    (cleanupSecretsPass ns delFail dryRun prefixes secrets).decisions.length ≤ i + 1 ∧
    (∀ n ∈ (cleanupSecretsPass ns delFail dryRun prefixes secrets).deleted,
        n ∈ secrets.take i) ∧
    (∀ n ∈ (cleanupSecretsPass ns delFail dryRun prefixes secrets).deleted,
        isProtectedSecret n = false) ∧
    (∀ d ∈ (cleanupSecretsPass ns delFail dryRun prefixes secrets).decisions,
        isProtectedSecret d.1 = true → d.2 = false) := by
  refine ⟨secrets_decisions_len_of_protected ns delFail dryRun prefixes secrets i h hp,
    secrets_deleted_take_of_protected ns delFail dryRun prefixes secrets i h hp,
    fun n hn => (secrets_deleted_mem ns delFail dryRun prefixes secrets n hn).1,
    ?_⟩
  rintro ⟨nm, b⟩ hd hpd
  cases b with
  | false => rfl
  | true =>
    have hpd' : isProtectedSecret nm = true := hpd
    have hfalse :=
      (secrets_decisions_delete_mem ns delFail dryRun prefixes secrets nm hd).1
    simp [hpd'] at hfalse

/-- Witness for C10 at a concrete input. -/
theorem protected_break_truncates_witness :
    (cleanupSecretsPass "ns" [] false []
        ["a-certificate", "root-x", "b-certificate"]).decisions.length ≤ 1 + 1 ∧
    (∀ n ∈ (cleanupSecretsPass "ns" [] false []
        ["a-certificate", "root-x", "b-certificate"]).deleted,
        n ∈ ["a-certificate", "root-x", "b-certificate"].take 1) ∧
    (∀ n ∈ (cleanupSecretsPass "ns" [] false []
        ["a-certificate", "root-x", "b-certificate"]).deleted,
        isProtectedSecret n = false) ∧
    (∀ d ∈ (cleanupSecretsPass "ns" [] false []
        ["a-certificate", "root-x", "b-certificate"]).decisions,
        isProtectedSecret d.1 = true → d.2 = false) :=
  protected_break_truncates "ns" [] false []
    ["a-certificate", "root-x", "b-certificate"] 1 (by decide) (by decide)

